import Mathlib

/-
Verification of the ratsnake gameplay engine: a shallow embedding of the
level/obstacle generator, the snake movement and growth model, the
fruit-placement algorithm and the tick-driven game state machine, together
with proofs of the specified properties.

Conventions of the embedding:
* `u16`/`u32`/`usize` machine integers are modelled as `Nat`.  All widths and
  heights come from `LevelSize.as_size` (at most 76), and all coordinates of
  live positions are below those, so no arithmetic in the embedded code can
  overflow the original machine-integer width; `checked_add`/`checked_sub`
  are translated to the corresponding `Nat` case splits.
* `HashSet<Position>` becomes `Finset Position`; `VecDeque<Position>` becomes
  `List Position` with the front of the deque at the head of the list.
* The injected RNG (`rand::Rng`) is modelled as an infinite stream of
  naturals plus a cursor.  The two consumers from the external `rand` crate,
  `Bernoulli::sample` and `IteratorRandom::choose`, are modelled as consuming
  one draw from the stream; `choose` returns `none` exactly on an empty
  sequence and otherwise some element of the sequence, which is the whole
  contract the engine relies on.
* I/O at the engine boundary (persisting the high-score file) is modelled by
  a boolean oracle `save_fails` in `Globals`: `Config::save_high_scores`
  fails exactly when the oracle says so, producing the `Warning` attached to
  the `PostMortem`.  The warning's text and scroll state are rendering
  concerns and are modelled as a single abstract value.
* `Instant`-based tick scheduling (`next_tick`, `process_input`) is real-time
  behaviour and is outside the embedding; `Game::advance` and
  `Game::handle_event` are embedded directly.
-/

namespace Ratsnake

/-- Maximum number of fruits present on a level at one time
(`consts::MAX_FRUITS`). -/
def MAX_FRUITS : Nat := 10

/-- Maximum snake length before any fruits have been eaten
(`consts::INITIAL_SNAKE_LENGTH`). -/
def INITIAL_SNAKE_LENGTH : Nat := 3

/-- How many cells the snake's length increases by upon eating a fruit
(`consts::SNAKE_GROWTH`). -/
def SNAKE_GROWTH : Nat := 3

/-- Number of cells cleared of obstacles behind the snake's starting head
(`consts::BACKWARDS_CLEARANCE`). -/
def BACKWARDS_CLEARANCE : Nat := 3

/-- Number of cells cleared of obstacles in front of the snake's starting
head (`consts::FORWARDS_CLEARANCE`). -/
def FORWARDS_CLEARANCE : Nat := 7

/-- A grid cell position (`ratatui::layout::Position`, `u16` coordinates). -/
structure Position where
  x : Nat
  y : Nat
deriving DecidableEq

/-- The bounds of a game level: size and wraparound (`util::Bounds`). -/
structure Bounds where
  width : Nat
  height : Nat
  wrap : Bool
deriving DecidableEq

/-- All positions of the level in row-major order
(`Bounds::positions`, iterating the `Rect` from the origin). -/
def Bounds.positionsList (b : Bounds) : List Position :=
  (List.range b.height).flatMap fun y =>
    (List.range b.width).map fun x => ⟨x, y⟩

/-- The four compass directions (`direction::Direction`). -/
inductive Direction where
  | North
  | East
  | South
  | West
deriving DecidableEq

/-- Decrease `x` by 1; if the result would leave `0..max`, return `none`
unless `wrap` is set, in which case wrap to `max - 1`
(`direction::decrement_in_bounds`). -/
def decrement_in_bounds (x max : Nat) (wrap : Bool) : Option Nat :=
  if x ≠ 0 then
    some (x - 1)
  else if wrap then
    some (max - 1)
  else
    none

/-- Increase `x` by 1; if the result would leave `0..max`, return `none`
unless `wrap` is set, in which case wrap to `0`
(`direction::increment_in_bounds`). -/
def increment_in_bounds (x max : Nat) (wrap : Bool) : Option Nat :=
  if x + 1 < max then
    some (x + 1)
  else if wrap then
    some 0
  else
    none

/-- Move `pos` one cell in direction `d` within `bounds`
(`Direction::advance`). -/
def Direction.advance (d : Direction) (pos : Position) (bounds : Bounds) :
    Option Position :=
  match d with
  | .North =>
      (decrement_in_bounds pos.y bounds.height bounds.wrap).map fun y => ⟨pos.x, y⟩
  | .East =>
      (increment_in_bounds pos.x bounds.width bounds.wrap).map fun x => ⟨x, pos.y⟩
  | .South =>
      (increment_in_bounds pos.y bounds.height bounds.wrap).map fun y => ⟨pos.x, y⟩
  | .West =>
      (decrement_in_bounds pos.x bounds.width bounds.wrap).map fun x => ⟨x, pos.y⟩

/-- The opposite compass direction (`Direction::reverse`). -/
def Direction.reverse : Direction → Direction
  | .North => .South
  | .East => .West
  | .South => .North
  | .West => .East

/-- Snake state (`snake::Snake`). -/
structure Snake where
  head : Position
  body : List Position
  max_len : Nat
  direction : Direction
deriving DecidableEq

/-- Create a new snake with an empty body of maximum length
`INITIAL_SNAKE_LENGTH` (`Snake::new`). -/
def Snake.new (head : Position) (direction : Direction) : Snake :=
  { head := head, body := [], max_len := INITIAL_SNAKE_LENGTH, direction := direction }

/-- Change the snake's direction (`Snake::turn`). -/
def Snake.turn (s : Snake) (direction : Direction) : Snake :=
  { s with direction := direction }

/-- The `while body.len() > max_len { body.pop_front(); }` loop of
`Snake::advance`: drop cells from the front while the length exceeds `m`. -/
def trimFront : List Position → Nat → List Position
  | [], _ => []
  | a :: t, m => if t.length + 1 > m then trimFront t m else a :: t

/-- Move the snake forwards one cell (`Snake::advance`).  Returns the Rust
method's `bool` result alongside the updated snake: `false` (with the snake
unchanged) when the head hits a non-wraparound edge. -/
def Snake.advance (s : Snake) (bounds : Bounds) : Bool × Snake :=
  match s.direction.advance s.head bounds with
  | none => (false, s)
  | some pos =>
      (true, { s with head := pos, body := trimFront (s.body ++ [s.head]) s.max_len })

/-- Extend the snake's maximum length after eating a fruit (`Snake::grow`). -/
def Snake.grow (s : Snake) : Snake :=
  { s with max_len := s.max_len + SNAKE_GROWTH }

/-- Deterministic model of the injected RNG (`rand::Rng`): an infinite stream
of naturals and the index of the next draw. -/
structure Rng where
  stream : Nat → Nat
  idx : Nat

/-- Draw one number from the RNG. -/
def Rng.next (r : Rng) : Nat × Rng :=
  (r.stream r.idx, { r with idx := r.idx + 1 })

/-- One `Bernoulli(OBSTACLE_PROBABILITY)` trial from the external `rand`
crate, modelled as consuming one draw from the stream; the resulting boolean
is an arbitrary but concrete function of the draw, since no verified claim
depends on the sampling distribution, only on the trial yielding some
boolean per cell. -/
def bernoulliSample (r : Rng) : Bool × Rng :=
  let d := r.next
  (decide (d.1 % 100 < 3), d.2)

/-- One independent Bernoulli trial per cell, in cell order
(the `positions().zip(dist.sample_iter(rng))` loop of
`LevelMap::set_obstacles`), collecting the cells whose trial succeeded. -/
def sampleCells (r : Rng) (cells : List Position) : Finset Position × Rng :=
  match cells with
  | [] => (∅, r)
  | c :: rest =>
      let d := bernoulliSample r
      let s := sampleCells d.2 rest
      (if d.1 then insert c s.1 else s.1, s.2)

/-- Model of `IteratorRandom::choose` from the external `rand` crate on the
sequence `l`: `none` exactly when `l` is empty, otherwise some element of
`l`, selected by a draw from the stream.  (The real implementation makes an
unbiased reservoir-style choice; the engine relies only on the returned
element belonging to the sequence.) -/
def chooseFrom (r : Rng) (l : List Position) : Option Position × Rng :=
  match l with
  | [] => (none, r)
  | x :: xs =>
      let d := r.next
      (some ((x :: xs).get ⟨d.1 % (xs.length + 1), Nat.mod_lt _ (Nat.succ_pos _)⟩), d.2)

/-- A map of a game level (`levels::LevelMap`). -/
structure LevelMap where
  bounds : Bounds
  obstacles : Finset Position
  snake_start : Position × Direction
deriving DecidableEq

/-- Create a new level with no obstacles and the snake starting in the
center facing north (`LevelMap::new`). -/
def LevelMap.new (bounds : Bounds) : LevelMap :=
  { bounds := bounds
    obstacles := ∅
    snake_start := (⟨bounds.width / 2, bounds.height / 2⟩, Direction.North) }

/-- The walk `successors(Some(start), |p| d.advance(p, bounds)).take(n)`
used by the clearance carving in `LevelMap::set_obstacles`: up to `n` cells
starting at `start`, stopping early when `advance` returns `none`. -/
def walkPath (start : Position) (d : Direction) (b : Bounds) : Nat → List Position
  | 0 => []
  | n + 1 =>
      start ::
        match d.advance start b with
        | none => []
        | some q => walkPath q d b n

/-- Populate the level with randomly-generated obstacles, then carve the two
clearance lanes from the snake's start (`LevelMap::set_obstacles`). -/
def LevelMap.set_obstacles (m : LevelMap) (r : Rng) : LevelMap × Rng :=
  let gen := sampleCells r m.bounds.positionsList
  let fwd := walkPath m.snake_start.1 m.snake_start.2 m.bounds FORWARDS_CLEARANCE
  let bwd := walkPath m.snake_start.1 m.snake_start.2.reverse m.bounds BACKWARDS_CLEARANCE
  let obs1 := fwd.foldl (fun s p => s.erase p) gen.1
  let obs2 := bwd.foldl (fun s p => s.erase p) obs1
  ({ m with obstacles := obs2 }, gen.2)

/-- A new `Snake` at this level's starting location and direction
(`LevelMap::new_snake`). -/
def LevelMap.new_snake (m : LevelMap) : Snake :=
  Snake.new m.snake_start.1 m.snake_start.2

/-- Possible level sizes (`options::LevelSize`). -/
inductive LevelSize where
  | Small
  | Medium
  | Large
deriving DecidableEq

/-- The actual (width, height) for a level size choice
(`LevelSize::as_size`). -/
def LevelSize.as_size : LevelSize → Nat × Nat
  | .Small => (38, 8)
  | .Medium => (53, 12)
  | .Large => (76, 19)

/-- Gameplay options (`options::Options`).  `fruits` is the `usize` carried
by `FruitQty` (between 1 and `MAX_FRUITS` whenever constructed through
`FruitQty::new`). -/
structure Options where
  wraparound : Bool
  obstacles : Bool
  fruits : Nat
  level_size : LevelSize
deriving DecidableEq

/-- Level bounds as configured by the options (`Options::level_bounds`). -/
def Options.level_bounds (o : Options) : Bounds :=
  { width := o.level_size.as_size.1
    height := o.level_size.as_size.2
    wrap := o.wraparound }

/-- High-score records (`highscores::HighScores`): the
`HashMap<Options, NonZeroU32>` is modelled as a partial lookup function;
stored values are positive in any state produced by the engine. -/
structure HighScores where
  scores : Options → Option Nat

/-- The high score, if any, for the given options (`HighScores::get`). -/
def HighScores.get (hs : HighScores) (opts : Options) : Option Nat :=
  hs.scores opts

/-- Set the high score for `opts` to `score` (`HighScores::set`). -/
def HighScores.set (hs : HighScores) (opts : Options) (score : Nat) : HighScores :=
  ⟨fun o => if o = opts then some score else hs.scores o⟩

/-- Global data passed between screens (`util::Globals`).  The `Config` is
modelled solely by the outcome of its `save_high_scores` I/O effect:
`save_fails` is true exactly when persisting the high-score file fails. -/
structure Globals where
  options : Options
  high_scores : HighScores
  save_fails : Bool

/-- A persistence-failure warning pop-up (`warning::Warning`).  Its text and
scroll state are rendering concerns, modelled as a single abstract value. -/
inductive Warning where
  | mk
deriving DecidableEq

/-- End-of-game report (`game::PostMortem`). -/
structure PostMortem where
  new_high_score : Bool
  warning : Option Warning
deriving DecidableEq

/-- The choices in the pause menu (`paused::PauseOpt`). -/
inductive PauseOpt where
  | Resume
  | Restart
  | MainMenu
  | Quit
deriving DecidableEq

/-- The next pause-menu choice, if any (`EnumExt::next` specialised to
`PauseOpt`, whose `enum_map::Enum` order is declaration order). -/
def PauseOpt.next : PauseOpt → Option PauseOpt
  | .Resume => some .Restart
  | .Restart => some .MainMenu
  | .MainMenu => some .Quit
  | .Quit => none

/-- The previous pause-menu choice, if any (`EnumExt::prev`). -/
def PauseOpt.prev : PauseOpt → Option PauseOpt
  | .Resume => none
  | .Restart => some .Resume
  | .MainMenu => some .Restart
  | .Quit => some .MainMenu

/-- The minimum pause-menu choice (`EnumExt::min`). -/
def PauseOpt.min : PauseOpt := .Resume

/-- The maximum pause-menu choice (`EnumExt::max`). -/
def PauseOpt.max : PauseOpt := .Quit

/-- The pause-menu pop-up state (`paused::Paused`). -/
structure Paused where
  selection : PauseOpt
deriving DecidableEq

/-- A fresh pause menu with the first item selected (`Paused::new`). -/
def Paused.new : Paused :=
  { selection := PauseOpt.min }

/-- The states a game can be in (`game::GameState`). -/
inductive GameState where
  | Running
  | Paused (paused : Ratsnake.Paused)
  | Dead (pm : PostMortem)
  | Exhausted (pm : PostMortem)
deriving DecidableEq

/-- The snake game screen (`game::Game`).  `next_tick` (an `Option<Instant>`
wall-clock deadline consulted only by `process_input`) is real-time state
outside the embedding. -/
structure Game where
  rng : Rng
  score : Nat
  high_score : Option Nat
  snake : Snake
  fruits : Finset Position
  state : GameState
  map : LevelMap
  globals : Globals

/-- Is the game currently running, i.e. neither paused nor over
(`Game::running`)? -/
def Game.running (g : Game) : Bool :=
  decide (g.state = GameState.Running)

/-- If the score exceeds the current high score, the new high score
(`Game::new_high_score`, where `NonZeroU32::new` rejects a zero score). -/
def Game.new_high_score (g : Game) : Option Nat :=
  if g.score = 0 then none
  else if (match g.high_score with | none => true | some hs => decide (hs < g.score)) then
    some g.score
  else
    none

/-- Check for a new high score; if there is one, record it in the high
scores and attempt to persist them, converting any persistence error into a
`Warning` (`Game::finalize_score`).  Returns the updated game alongside the
`PostMortem`. -/
def Game.finalize_score (g : Game) : Game × PostMortem :=
  match g.new_high_score with
  | some score =>
      let warning := if g.globals.save_fails then some Warning.mk else none
      ({ g with globals :=
          { g.globals with
            high_scores := g.globals.high_scores.set g.globals.options score } },
       { new_high_score := true, warning := warning })
  | none => (g, { new_high_score := false, warning := none })

/-- The lazily filtered sequence of free cells built inside
`Game::place_fruit`: all board positions minus the occupied set
`(fruits ∪ obstacles) ∪ {head} ∪ body`. -/
def Game.freeCells (g : Game) : List Position :=
  g.map.bounds.positionsList.filter fun p =>
    p ∉ (g.fruits ∪ g.map.obstacles) ∪ insert g.snake.head g.snake.body.toFinset

/-- Place a fruit at a randomly-selected empty position in the level, if any
(`Game::place_fruit`).  Saturation is not an error: when no free cell
exists, the `extend` of the empty choice leaves the fruit set unchanged. -/
def Game.place_fruit (g : Game) : Game :=
  { g with
    rng := (chooseFrom g.rng g.freeCells).2
    fruits :=
      match (chooseFrom g.rng g.freeCells).1 with
      | none => g.fruits
      | some p => insert p g.fruits }

/-- Transition to `Dead` with a freshly computed `PostMortem`
(the `self.state = GameState::Dead(self.finalize_score())` statements of
`Game::advance`). -/
def Game.die (g : Game) : Game :=
  { (g.finalize_score).1 with state := GameState.Dead (g.finalize_score).2 }

/-- The final `if self.fruits.is_empty()` check of `Game::advance`:
transition to `Exhausted` when no fruit is left. -/
def Game.exhaustCheck (g : Game) : Game :=
  if g.fruits = (∅ : Finset Position) then
    { (g.finalize_score).1 with state := GameState.Exhausted (g.finalize_score).2 }
  else
    g

/-- Move the snake forwards and respond to any fruits or obstacles it came
into contact with (`Game::advance`).  The edge-collision branch `return`s
early in the source, so the exhaustion check is skipped there. -/
def Game.advance (g : Game) : Game :=
  if !g.running then g
  else
    match g.snake.advance g.map.bounds with
    | (false, s) => { g with snake := s }.die
    | (true, s) =>
        Game.exhaustCheck <|
          if s.head ∈ g.fruits then
            { g with
              fruits := g.fruits.erase s.head
              score := g.score + 1
              snake := s.grow }.place_fruit
          else if s.head ∈ s.body ∨ s.head ∈ g.map.obstacles then
            { g with snake := s }.die
          else
            { g with snake := s }

/-- Pause the game (`Game::pause`). -/
def Game.pause (g : Game) : Game :=
  { g with state := GameState.Paused Paused.new }

/-- The `for _ in 0..fruit_qty { game.place_fruit(); }` loop of
`Game::new_with_rng`. -/
def Game.placeFruits (g : Game) : Nat → Game
  | 0 => g
  | n + 1 => g.place_fruit.placeFruits n

/-- Create a new game from the given globals using the given RNG
(`Game::new_with_rng`). -/
def Game.new_with_rng (globals : Globals) (rng : Rng) : Game :=
  let map0 := LevelMap.new globals.options.level_bounds
  let gen :=
    if globals.options.obstacles then map0.set_obstacles rng else (map0, rng)
  let game : Game :=
    { rng := gen.2
      score := 0
      high_score := globals.high_scores.get globals.options
      snake := gen.1.new_snake
      fruits := ∅
      state := GameState.Running
      map := gen.1
      globals := globals }
  game.placeFruits globals.options.fruits

/-- Input commands, abstracted away from key codes (`command::Command`).
The key-code decoding of `Command::from_key_event` lives at the `crossterm`
boundary and is outside the embedding. -/
inductive Command where
  | Quit
  | Up
  | Down
  | Left
  | Right
  | Enter
  | Space
  | Home
  | End
  | Next
  | Prev
  | Esc
  | M
  | P
  | Q
  | R
deriving DecidableEq

/-- An input event as seen by `Game::handle_event`: loss of terminal focus,
a key press that decodes to a `Command`, or anything else (key presses with
no command, resizes, mouse events, ...). -/
inductive GameEvent where
  | focusLost
  | key (c : Command)
  | other
deriving DecidableEq

/-- Handle an input event in the pause menu (`Paused::handle_event`):
the updated menu alongside the user's choice, if the event made one. -/
def Paused.handle_event (p : Paused) (ev : GameEvent) : Paused × Option PauseOpt :=
  match ev with
  | .focusLost => (p, none)
  | .other => (p, none)
  | .key c =>
      match c with
      | .Esc => (p, some .Resume)
      | .R => (p, some .Restart)
      | .M => (p, some .MainMenu)
      | .Q => (p, some .Quit)
      | .Quit => (p, some .Quit)
      | .Enter => (p, some p.selection)
      | .Up =>
          (match p.selection.prev with
           | some opt => { p with selection := opt }
           | none => p, none)
      | .Down =>
          (match p.selection.next with
           | some opt => { p with selection := opt }
           | none => p, none)
      | .Next => ({ p with selection := p.selection.next.getD PauseOpt.min }, none)
      | .Prev => ({ p with selection := p.selection.prev.getD PauseOpt.max }, none)
      | .Home => ({ p with selection := PauseOpt.min }, none)
      | .End => ({ p with selection := PauseOpt.max }, none)
      | _ => (p, none)

/-- Process a command on a warning pop-up (`Warning::handle_command`):
`Enter` dismisses, `Ctrl-C` quits; the `Up`/`Down` scroll adjustments touch
only the pop-up's rendering state, which the model elides. -/
inductive WarningOutcome where
  | Dismissed
  | Quit
deriving DecidableEq

/-- See `WarningOutcome`. -/
def Warning.handle_command (_ : Warning) (cmd : Command) : Option WarningOutcome :=
  match cmd with
  | .Enter => some .Dismissed
  | .Quit => some .Quit
  | _ => none

/-- Handle an input event (`Game::handle_event`).  The embedded form keeps
only the mutation of the game itself; the `Option<Screen>` result (quit,
restart into a brand-new game, or main menu) leaves the current game value
untouched, so those outcomes appear here as the unchanged game. -/
def Game.handle_event (g : Game) (ev : GameEvent) : Game :=
  match g.state with
  | GameState.Running =>
      match ev with
      | .focusLost => g.pause
      | .other => g
      | .key c =>
          match c with
          | .Quit => g
          | .Up => { g with snake := g.snake.turn Direction.North }
          | .Left => { g with snake := g.snake.turn Direction.West }
          | .Down => { g with snake := g.snake.turn Direction.South }
          | .Right => { g with snake := g.snake.turn Direction.East }
          | .Esc => g.pause
          | _ => g
  | GameState.Paused p =>
      match (p.handle_event ev).2 with
      | some PauseOpt.Resume => { g with state := GameState.Running }
      | some PauseOpt.Restart => { g with state := GameState.Paused (p.handle_event ev).1 }
      | some PauseOpt.MainMenu => { g with state := GameState.Paused (p.handle_event ev).1 }
      | some PauseOpt.Quit => { g with state := GameState.Paused (p.handle_event ev).1 }
      | none => { g with state := GameState.Paused (p.handle_event ev).1 }
  | GameState.Dead pm =>
      match ev with
      | .key c =>
          match pm.warning with
          | some wrn =>
              match wrn.handle_command c with
              | some .Dismissed =>
                  { g with state := GameState.Dead { pm with warning := none } }
              | some .Quit => g
              | none => g
          | none => g
      | _ => g
  | GameState.Exhausted pm =>
      match ev with
      | .key c =>
          match pm.warning with
          | some wrn =>
              match wrn.handle_command c with
              | some .Dismissed =>
                  { g with state := GameState.Exhausted { pm with warning := none } }
              | some .Quit => g
              | none => g
          | none => g
      | _ => g

/-- The game states reachable from `Game::new_with_rng` by any sequence of
`advance` and input-event-handling steps.  A pause-menu restart or
main-menu/new-game transition constructs a brand-new game through
`Game::new_with_rng`, which is again an initial state. -/
inductive Reachable : Game → Prop where
  | init (globals : Globals) (rng : Rng) : Reachable (Game.new_with_rng globals rng)
  | advance {g : Game} : Reachable g → Reachable g.advance
  | handle {g : Game} (ev : GameEvent) : Reachable g → Reachable (g.handle_event ev)

/-- Specification-side restatement of single-step movement, following the
spec's words: move one cell in the compass direction; if the result falls
outside the grid, wrap the offending coordinate to the opposite edge
(`width - 1` or `0`, symmetric for `y`) when `wrap` is set, and return no
result otherwise.  To be compared with `Direction.advance`, which embeds the
source. -/
def advanceSpec (d : Direction) (p : Position) (b : Bounds) : Option Position :=
  match d with
  | .North =>
      if p.y = 0 then (if b.wrap then some ⟨p.x, b.height - 1⟩ else none)
      else some ⟨p.x, p.y - 1⟩
  | .South =>
      if p.y = b.height - 1 then (if b.wrap then some ⟨p.x, 0⟩ else none)
      else some ⟨p.x, p.y + 1⟩
  | .East =>
      if p.x = b.width - 1 then (if b.wrap then some ⟨0, p.y⟩ else none)
      else some ⟨p.x + 1, p.y⟩
  | .West =>
      if p.x = 0 then (if b.wrap then some ⟨b.width - 1, p.y⟩ else none)
      else some ⟨p.x - 1, p.y⟩

/-- Is `p` on the boundary that direction `d` moves across? -/
def atBoundary (d : Direction) (p : Position) (b : Bounds) : Prop :=
  match d with
  | .North => p.y = 0
  | .South => p.y = b.height - 1
  | .East => p.x = b.width - 1
  | .West => p.x = 0

/-- The engine invariants of §8 of the specification, stated over a single
game value: fruits avoid obstacles and the snake, the body never exceeds its
maximum length, and the maximum length is determined by the score. -/
def EngineInv (g : Game) : Prop :=
  (∀ p ∈ g.fruits, p ∉ g.map.obstacles ∧ p ≠ g.snake.head ∧ p ∉ g.snake.body) ∧
  g.snake.body.length ≤ g.snake.max_len ∧
  g.snake.max_len = INITIAL_SNAKE_LENGTH + g.score * SNAKE_GROWTH

/-- A fixed globals value used by the concrete witnesses. -/
def demoGlobals : Globals :=
  { options := { wraparound := false, obstacles := false, fruits := 1, level_size := .Small }
    high_scores := ⟨fun _ => none⟩
    save_fails := false }

/-- A fixed RNG used by the concrete witnesses: the all-zeros stream. -/
def demoRng : Rng :=
  ⟨fun _ => 0, 0⟩

/-- A running game on the 10×15 non-wraparound board of the spec's concrete
scenarios whose fruit set is empty and whose snake faces the north edge from
`(2, 0)`: advancing it hits the edge-collision branch of `Game::advance`
while the fruit set is empty. -/
def gameEdgeNoFruit : Game :=
  { rng := demoRng
    score := 0
    high_score := none
    snake := ⟨⟨2, 0⟩, [], 3, .North⟩
    fruits := ∅
    state := .Running
    map := { bounds := ⟨10, 15, false⟩, obstacles := ∅, snake_start := (⟨5, 7⟩, .North) }
    globals := demoGlobals }

/-- A running game on a 1×2 board whose snake is about to eat the only fruit
with no free cell left afterwards: advancing it exhausts the board. -/
def gameAboutToExhaust : Game :=
  { rng := demoRng
    score := 0
    high_score := none
    snake := ⟨⟨0, 1⟩, [], 3, .North⟩
    fruits := {⟨0, 0⟩}
    state := .Running
    map := { bounds := ⟨1, 2, false⟩, obstacles := ∅, snake_start := (⟨0, 1⟩, .North) }
    globals := demoGlobals }

/-- The game `gameAboutToExhaust` with score 42: a game about to finalize a score of
42 with no stored high score. -/
def gameScore42 : Game :=
  { gameAboutToExhaust with score := 42 }

/-- The game `gameAboutToExhaust` with score 1 and a stored high score of 42. -/
def gameScore1Hs42 : Game :=
  { gameAboutToExhaust with score := 1, high_score := some 42 }

/-- A paused game: ticking must leave it untouched. -/
def gamePaused : Game :=
  { gameAboutToExhaust with state := .Paused Paused.new }

/-- The game `gameAboutToExhaust` with no fruit on the board: exactly one free cell,
`(0, 0)`, is available for fruit placement. -/
def gameOneFree : Game :=
  { gameAboutToExhaust with fruits := ∅ }

/-- A running game on a saturated 1×1 board: the snake's head occupies the
only cell, so no fruit can ever be placed. -/
def gameSaturated : Game :=
  { rng := demoRng
    score := 0
    high_score := none
    snake := ⟨⟨0, 0⟩, [], 3, .North⟩
    fruits := ∅
    state := .Running
    map := { bounds := ⟨1, 1, false⟩, obstacles := ∅, snake_start := (⟨0, 0⟩, .North) }
    globals := demoGlobals }

/-- A fresh 5×5 level map for the clearance-carving witness. -/
def demoMap : LevelMap :=
  LevelMap.new ⟨5, 5, false⟩

/-- The trimming loop of `Snake::advance` drops exactly the oldest cells
beyond the maximum length. -/
theorem trimFront_eq_drop (l : List Position) (m : Nat) :
    trimFront l m = l.drop (l.length - m) := by
  induction l with
  | nil => simp [trimFront]
  | cons a t ih =>
      unfold trimFront
      by_cases h : t.length + 1 > m
      · rw [if_pos h, ih]
        have h2 : (a :: t).length - m = (t.length - m) + 1 := by
          simp only [List.length_cons]
          omega
        rw [h2, List.drop_succ_cons]
      · rw [if_neg h]
        have h2 : (a :: t).length - m = 0 := by
          simp only [List.length_cons]
          omega
        rw [h2, List.drop_zero]

/-- The trimmed body keeps `min (original length) m` cells. -/
theorem trimFront_length (l : List Position) (m : Nat) :
    (trimFront l m).length = min l.length m := by
  rw [trimFront_eq_drop, List.length_drop]
  omega

/-- Every cell of the trimmed body was a cell of the original body. -/
theorem mem_of_mem_trimFront {l : List Position} {m : Nat} {q : Position}
    (h : q ∈ trimFront l m) : q ∈ l := by
  rw [trimFront_eq_drop] at h
  exact List.drop_subset _ l h

/-- The method `Snake::advance` returns `false` exactly when `Direction::advance`
returns no position, and then leaves the snake unchanged. -/
theorem Snake.advance_of_edge {s : Snake} {b : Bounds}
    (h : s.direction.advance s.head b = none) : s.advance b = (false, s) := by
  unfold Snake.advance
  rw [h]

/-- On a successful step, `Snake::advance` moves the head to the new
position and pushes the old head onto the trimmed body. -/
theorem Snake.advance_of_step {s : Snake} {b : Bounds} {p : Position}
    (h : s.direction.advance s.head b = some p) :
    s.advance b =
      (true, { s with head := p, body := trimFront (s.body ++ [s.head]) s.max_len }) := by
  unfold Snake.advance
  rw [h]

/-- If `Snake::advance` reports `false`, the snake is unchanged. -/
theorem Snake.advance_false {s s2 : Snake} {b : Bounds}
    (h : s.advance b = (false, s2)) : s2 = s := by
  unfold Snake.advance at h
  rcases hd : s.direction.advance s.head b with _ | p <;> rw [hd] at h
  · exact (Prod.mk.injEq _ _ _ _ ▸ h).2.symm
  · simp at h

/-- If `Snake::advance` reports `true`, the updated snake's fields are a
trimmed push of the old ones, with `max_len` and `direction` untouched. -/
theorem Snake.advance_true {s s2 : Snake} {b : Bounds}
    (h : s.advance b = (true, s2)) :
    s2.body = trimFront (s.body ++ [s.head]) s.max_len ∧
      s2.max_len = s.max_len ∧ s2.direction = s.direction ∧
      s.direction.advance s.head b = some s2.head := by
  unfold Snake.advance at h
  rcases hd : s.direction.advance s.head b with _ | p <;> rw [hd] at h
  · simp at h
  · have h2 := (Prod.mk.injEq _ _ _ _ ▸ h).2
    subst h2
    exact ⟨rfl, rfl, rfl, rfl⟩

/-- The model of `choose` returns `none` exactly on an empty sequence. -/
theorem chooseFrom_fst_eq_none {r : Rng} {l : List Position} :
    (chooseFrom r l).1 = none ↔ l = [] := by
  cases l <;> simp [chooseFrom]

/-- The model of `choose` returns an element of the sequence. -/
theorem chooseFrom_mem {r : Rng} {l : List Position} {p : Position}
    (h : (chooseFrom r l).1 = some p) : p ∈ l := by
  cases l with
  | nil => simp [chooseFrom] at h
  | cons x xs =>
      simp only [chooseFrom, Option.some.injEq] at h
      rw [← h]
      exact List.get_mem _ _ _

/-- Membership in the row-major cell enumeration is exactly being in
bounds. -/
theorem mem_positionsList {b : Bounds} {p : Position} :
    p ∈ b.positionsList ↔ p.x < b.width ∧ p.y < b.height := by
  obtain ⟨x, y⟩ := p
  simp only [Bounds.positionsList, List.mem_flatMap, List.mem_map, List.mem_range]
  constructor
  · rintro ⟨y2, hy2, x2, hx2, h⟩
    obtain ⟨rfl, rfl⟩ := Position.mk.injEq .. ▸ h
    exact ⟨hx2, hy2⟩
  · rintro ⟨hx, hy⟩
    exact ⟨y, hy, x, hx, rfl⟩

/-- The method `Game::finalize_score` only touches the high-score collaborator: score,
snake, fruits, state and map are unchanged. -/
theorem finalize_score_fields (g : Game) :
    (g.finalize_score).1.score = g.score ∧
      (g.finalize_score).1.snake = g.snake ∧
      (g.finalize_score).1.fruits = g.fruits ∧
      (g.finalize_score).1.state = g.state ∧
      (g.finalize_score).1.map = g.map ∧
      (g.finalize_score).1.high_score = g.high_score := by
  unfold Game.finalize_score
  rcases g.new_high_score with _ | s <;>
    exact ⟨rfl, rfl, rfl, rfl, rfl, rfl⟩

/-- The death transition of `Game::advance` only touches state and high scores. -/
theorem die_fields (g : Game) :
    g.die.score = g.score ∧ g.die.snake = g.snake ∧ g.die.fruits = g.fruits ∧
      g.die.map = g.map ∧ g.die.state = GameState.Dead (g.finalize_score).2 := by
  unfold Game.die
  refine ⟨?_, ?_, ?_, ?_, rfl⟩
  · exact (finalize_score_fields g).1
  · exact (finalize_score_fields g).2.1
  · exact (finalize_score_fields g).2.2.1
  · exact (finalize_score_fields g).2.2.2.2.1

/-- The exhaustion check only touches state and high scores. -/
theorem exhaustCheck_fields (g : Game) :
    g.exhaustCheck.score = g.score ∧ g.exhaustCheck.snake = g.snake ∧
      g.exhaustCheck.fruits = g.fruits ∧ g.exhaustCheck.map = g.map := by
  unfold Game.exhaustCheck
  by_cases h : g.fruits = (∅ : Finset Position)
  · rw [if_pos h]
    exact ⟨(finalize_score_fields g).1, (finalize_score_fields g).2.1,
      (finalize_score_fields g).2.2.1, (finalize_score_fields g).2.2.2.2.1⟩
  · rw [if_neg h]
    exact ⟨rfl, rfl, rfl, rfl⟩

/-- The method `Game::place_fruit` only touches the RNG and the fruit set. -/
theorem place_fruit_fields (g : Game) :
    g.place_fruit.score = g.score ∧ g.place_fruit.snake = g.snake ∧
      g.place_fruit.map = g.map ∧ g.place_fruit.state = g.state ∧
      g.place_fruit.high_score = g.high_score ∧ g.place_fruit.globals = g.globals := by
  unfold Game.place_fruit
  exact ⟨rfl, rfl, rfl, rfl, rfl, rfl⟩

/-- A cell is free exactly when it is in bounds and avoids the fruits, the
obstacles, the snake's head and the snake's body. -/
theorem mem_freeCells {g : Game} {q : Position} :
    q ∈ g.freeCells ↔
      q.x < g.map.bounds.width ∧ q.y < g.map.bounds.height ∧ q ∉ g.fruits ∧
        q ∉ g.map.obstacles ∧ q ≠ g.snake.head ∧ q ∉ g.snake.body := by
  unfold Game.freeCells
  rw [List.mem_filter]
  simp only [decide_eq_true_eq, Finset.mem_union, Finset.mem_insert, List.mem_toFinset,
    not_or, mem_positionsList]
  tauto

/-- Every fruit present after `Game::place_fruit` was either already present
or is a fresh in-bounds cell avoiding the existing fruits, the obstacles and
the snake. -/
theorem place_fruit_mem {g : Game} {q : Position} (h : q ∈ g.place_fruit.fruits) :
    q ∈ g.fruits ∨
      (q.x < g.map.bounds.width ∧ q.y < g.map.bounds.height ∧ q ∉ g.fruits ∧
        q ∉ g.map.obstacles ∧ q ≠ g.snake.head ∧ q ∉ g.snake.body) := by
  unfold Game.place_fruit at h
  simp only at h
  rcases hc : (chooseFrom g.rng g.freeCells).1 with _ | p
  · rw [hc] at h
    exact Or.inl h
  · rw [hc] at h
    rcases Finset.mem_insert.mp h with rfl | hq
    · exact Or.inr (mem_freeCells.mp (chooseFrom_mem hc))
    · exact Or.inl hq

/-- The method `Game::place_fruit` preserves the engine invariants. -/
theorem inv_place_fruit {g : Game} (hg : EngineInv g) : EngineInv g.place_fruit := by
  unfold EngineInv at hg ⊢
  obtain ⟨hfr, hlen, hmax⟩ := hg
  obtain ⟨hscore, hsnake, hmap, -, -, -⟩ := place_fruit_fields g
  rw [hscore, hsnake, hmap]
  refine ⟨?_, hlen, hmax⟩
  intro p hp
  rcases place_fruit_mem hp with hold | ⟨-, -, -, ho, hh, hb⟩
  · exact hfr p hold
  · exact ⟨ho, hh, hb⟩

/-- The initial fruit-seeding loop preserves the engine invariants. -/
theorem inv_placeFruits {g : Game} (hg : EngineInv g) (n : Nat) :
    EngineInv (g.placeFruits n) := by
  induction n generalizing g with
  | zero => exact hg
  | succ n ih => exact ih (inv_place_fruit hg)

/-- The method `Game::finalize_score` preserves the engine invariants. -/
theorem inv_finalize {g : Game} (hg : EngineInv g) : EngineInv (g.finalize_score).1 := by
  unfold EngineInv at hg ⊢
  obtain ⟨h1, h2, h3, h4, h5, -⟩ := finalize_score_fields g
  rw [h1, h2, h3, h5]
  exact hg

/-- The death transition preserves the engine invariants. -/
theorem inv_die {g : Game} (hg : EngineInv g) : EngineInv g.die := by
  unfold EngineInv at hg ⊢
  obtain ⟨h1, h2, h3, h4, -⟩ := die_fields g
  rw [h1, h2, h3, h4]
  exact hg

/-- The exhaustion check preserves the engine invariants. -/
theorem inv_exhaustCheck {g : Game} (hg : EngineInv g) : EngineInv g.exhaustCheck := by
  unfold EngineInv at hg ⊢
  obtain ⟨h1, h2, h3, h4⟩ := exhaustCheck_fields g
  rw [h1, h2, h3, h4]
  exact hg

/-- A successful movement step that does not land on a fruit preserves the
engine invariants. -/
theorem inv_step_no_eat {g : Game} {s : Snake} (hg : EngineInv g)
    (hbody : s.body = trimFront (g.snake.body ++ [g.snake.head]) g.snake.max_len)
    (hmax : s.max_len = g.snake.max_len)
    (hne : s.head ∉ g.fruits) :
    EngineInv { g with snake := s } := by
  unfold EngineInv at hg ⊢
  obtain ⟨hfr, hlen, hmaxlaw⟩ := hg
  refine ⟨?_, ?_, ?_⟩
  · intro p hp
    obtain ⟨ho, hh, hb⟩ := hfr p hp
    refine ⟨ho, ?_, ?_⟩
    · intro he
      exact hne (he ▸ hp)
    · intro hmem
      rcases List.mem_append.mp (mem_of_mem_trimFront (hbody ▸ hmem)) with h | h
      · exact hb h
      · exact hh (List.mem_singleton.mp h)
  · rw [hbody, hmax, trimFront_length]
    omega
  · rw [hmax]
    exact hmaxlaw

/-- A successful movement step that eats a fruit — remove the fruit, bump
the score, grow the snake — preserves the engine invariants. -/
theorem inv_step_eat {g : Game} {s : Snake} (hg : EngineInv g)
    (hbody : s.body = trimFront (g.snake.body ++ [g.snake.head]) g.snake.max_len)
    (hmax : s.max_len = g.snake.max_len) :
    EngineInv
      { g with
        fruits := g.fruits.erase s.head
        score := g.score + 1
        snake := s.grow } := by
  unfold EngineInv at hg ⊢
  obtain ⟨hfr, hlen, hmaxlaw⟩ := hg
  refine ⟨?_, ?_, ?_⟩
  · intro p hp
    obtain ⟨hne, hpf⟩ := Finset.mem_erase.mp hp
    obtain ⟨ho, hh, hb⟩ := hfr p hpf
    refine ⟨ho, hne, ?_⟩
    intro hmem
    rcases List.mem_append.mp (mem_of_mem_trimFront (hbody ▸ hmem)) with h | h
    · exact hb h
    · exact hh (List.mem_singleton.mp h)
  · show s.body.length ≤ s.max_len + SNAKE_GROWTH
    rw [hbody, hmax, trimFront_length]
    omega
  · show s.max_len + SNAKE_GROWTH = INITIAL_SNAKE_LENGTH + (g.score + 1) * SNAKE_GROWTH
    rw [hmax, hmaxlaw]
    ring

/-- The method `Game::advance` preserves the engine invariants. -/
theorem inv_advance {g : Game} (hg : EngineInv g) : EngineInv g.advance := by
  unfold Game.advance
  cases hrun : g.running
  · simpa using hg
  · simp only [Bool.not_true, Bool.false_eq_true, if_false]
    rcases hadv : g.snake.advance g.map.bounds with ⟨ok, s⟩
    cases ok
    · have hs := Snake.advance_false hadv
      subst hs
      exact inv_die hg
    · obtain ⟨hbody, hmax, hdir, hhead⟩ := Snake.advance_true hadv
      apply inv_exhaustCheck
      split_ifs with h1 h2
      · exact inv_place_fruit (inv_step_eat hg hbody hmax)
      · exact inv_die (inv_step_no_eat hg hbody hmax h1)
      · exact inv_step_no_eat hg hbody hmax h1

/-- A freshly constructed game satisfies the engine invariants. -/
theorem inv_new (globals : Globals) (rng : Rng) :
    EngineInv (Game.new_with_rng globals rng) := by
  unfold Game.new_with_rng
  apply inv_placeFruits
  unfold EngineInv LevelMap.new_snake Snake.new
  refine ⟨?_, ?_, ?_⟩
  · intro p hp
    exact absurd hp (Finset.not_mem_empty p)
  · exact Nat.zero_le _
  · simp [INITIAL_SNAKE_LENGTH, SNAKE_GROWTH]

/-- The method `Game::handle_event` never touches the fruits, the map, the score, or
the snake's occupancy and length data: it only changes the lifecycle state,
the pause-menu cursor, a post-mortem warning, or the snake's heading. -/
theorem handle_event_fields (g : Game) (ev : GameEvent) :
    (g.handle_event ev).fruits = g.fruits ∧ (g.handle_event ev).map = g.map ∧
      (g.handle_event ev).score = g.score ∧
      (g.handle_event ev).snake.head = g.snake.head ∧
      (g.handle_event ev).snake.body = g.snake.body ∧
      (g.handle_event ev).snake.max_len = g.snake.max_len := by
  unfold Game.handle_event
  cases hst : g.state <;> cases ev <;>
    first
    | exact ⟨rfl, rfl, rfl, rfl, rfl, rfl⟩
    | (rename_i c
       cases c <;> exact ⟨rfl, rfl, rfl, rfl, rfl, rfl⟩)
    | ((repeat' split) <;> exact ⟨rfl, rfl, rfl, rfl, rfl, rfl⟩)

/-- The method `Game::handle_event` preserves the engine invariants. -/
theorem inv_handle {g : Game} (ev : GameEvent) (hg : EngineInv g) :
    EngineInv (g.handle_event ev) := by
  unfold EngineInv at hg ⊢
  obtain ⟨h1, h2, h3, h4, h5, h6⟩ := handle_event_fields g ev
  rw [h1, h2, h3, h4, h5, h6]
  exact hg

/-- Every reachable game state satisfies the engine invariants. -/
theorem reachable_inv {g : Game} (h : Reachable g) : EngineInv g := by
  induction h with
  | init globals rng => exact inv_new globals rng
  | advance _ ih => exact inv_advance ih
  | handle ev _ ih => exact inv_handle ev ih

/-- C2: in every game state reachable from `Game::new_with_rng` by `advance`
and input-event-handling steps, the fruit set is disjoint from the obstacle
set and from the cells occupied by the snake (head and every body cell). -/
theorem C2_fruit_disjointness (g : Game) (h : Reachable g) :
    (∀ p ∈ g.fruits, p ∉ g.map.obstacles) ∧
      (∀ p ∈ g.fruits, p ≠ g.snake.head ∧ p ∉ g.snake.body) := by
  have hinv := reachable_inv h
  unfold EngineInv at hinv
  obtain ⟨hfr, -, -⟩ := hinv
  exact ⟨fun p hp => (hfr p hp).1, fun p hp => ⟨(hfr p hp).2.1, (hfr p hp).2.2⟩⟩

/-- C2 witness: the disjointness instantiated at a concrete freshly
constructed game. -/
theorem C2_witness :
    (∀ p ∈ (Game.new_with_rng demoGlobals demoRng).fruits,
        p ∉ (Game.new_with_rng demoGlobals demoRng).map.obstacles) ∧
      (∀ p ∈ (Game.new_with_rng demoGlobals demoRng).fruits,
        p ≠ (Game.new_with_rng demoGlobals demoRng).snake.head ∧
          p ∉ (Game.new_with_rng demoGlobals demoRng).snake.body) :=
  C2_fruit_disjointness _ (Reachable.init demoGlobals demoRng)

/-- C3: in every reachable game state, the snake's body never exceeds its
maximum length; `Snake::advance` restores the bound immediately by dropping
the oldest cell(s). -/
theorem C3_body_length_bound (g : Game) (h : Reachable g) :
    g.snake.body.length ≤ g.snake.max_len := by
  have hinv := reachable_inv h
  unfold EngineInv at hinv
  exact hinv.2.1

/-- C3 witness: the length bound instantiated at a concrete freshly
constructed game. -/
theorem C3_witness :
    (Game.new_with_rng demoGlobals demoRng).snake.body.length ≤
      (Game.new_with_rng demoGlobals demoRng).snake.max_len :=
  C3_body_length_bound _ (Reachable.init demoGlobals demoRng)

/-- C8: in every reachable game state, `max_len` equals
`INITIAL_SNAKE_LENGTH + score × SNAKE_GROWTH` (with `INITIAL_SNAKE_LENGTH`
and `SNAKE_GROWTH` both 3): eating exactly `k` fruits — the score counts
them — raises `max_len` by exactly `k × SNAKE_GROWTH`, regardless of the
order of eating vs. dying. -/
theorem C8_growth_law (g : Game) (h : Reachable g) :
    g.snake.max_len = INITIAL_SNAKE_LENGTH + g.score * SNAKE_GROWTH ∧
      INITIAL_SNAKE_LENGTH = 3 ∧ SNAKE_GROWTH = 3 := by
  have hinv := reachable_inv h
  unfold EngineInv at hinv
  exact ⟨hinv.2.2, rfl, rfl⟩

/-- C8 witness: the growth law instantiated at a concrete freshly
constructed game. -/
theorem C8_witness :
    (Game.new_with_rng demoGlobals demoRng).snake.max_len =
        INITIAL_SNAKE_LENGTH + (Game.new_with_rng demoGlobals demoRng).score * SNAKE_GROWTH ∧
      INITIAL_SNAKE_LENGTH = 3 ∧ SNAKE_GROWTH = 3 :=
  C8_growth_law _ (Reachable.init demoGlobals demoRng)

/-- C10: advancing a game that is not running — paused, dead, or exhausted —
leaves the game completely unchanged; the terminal states are stable under
ticks. -/
theorem C10_advance_frame (g : Game) (h : g.state ≠ GameState.Running) :
    g.advance = g := by
  unfold Game.advance
  have hr : g.running = false := by
    unfold Game.running
    exact decide_eq_false h
  rw [hr]
  rfl

/-- C10 witness: advancing a concrete paused game changes nothing. -/
theorem C10_witness : gamePaused.advance = gamePaused :=
  C10_advance_frame gamePaused (by decide)

/-- For in-bounds positions, the embedded `Direction::advance` computes
exactly the movement described by the specification's words. -/
theorem advance_eq_advanceSpec {p : Position} {b : Bounds} (d : Direction)
    (hx : p.x < b.width) (hy : p.y < b.height) :
    d.advance p b = advanceSpec d p b := by
  cases d <;>
    simp only [Direction.advance, advanceSpec, decrement_in_bounds,
      increment_in_bounds] <;>
    split_ifs <;>
    first
    | rfl
    | omega

/-- C4: for every in-bounds position and direction, `Direction::advance`
agrees with the spec's description: with `wrap = true` it always returns a
position (wrapping the offending coordinate to the opposite edge, per
`advanceSpec`); with `wrap = false` it returns none exactly when the
position lies on the boundary the direction moves across; and any returned
position is again in bounds. -/
theorem C4_wraparound_law (p : Position) (b : Bounds) (d : Direction)
    (hx : p.x < b.width) (hy : p.y < b.height) :
    d.advance p b = advanceSpec d p b ∧
      (b.wrap = true → d.advance p b ≠ none) ∧
      (b.wrap = false → (d.advance p b = none ↔ atBoundary d p b)) ∧
      (∀ q, d.advance p b = some q → q.x < b.width ∧ q.y < b.height) := by
  have he := advance_eq_advanceSpec d hx hy
  refine ⟨he, ?_, ?_, ?_⟩
  · intro hw
    rw [he]
    cases d <;>
      simp only [advanceSpec, hw] <;>
      split_ifs <;>
      simp
  · intro hw
    rw [he]
    cases d <;>
      simp only [advanceSpec, atBoundary, hw] <;>
      split_ifs with hb <;>
      simp_all
  · intro q hq
    rw [he] at hq
    cases d <;>
      (simp only [advanceSpec] at hq
       split_ifs at hq <;>
       first
       | exact Option.noConfusion hq
       | (cases hq
          constructor <;> dsimp only <;> omega))

/-- C4 witness: the spec's concrete scenarios on the 10×15 board — from
`(2, 0)` facing north, `advance` reports an edge collision without
wraparound and lands on `(2, 14)` with wraparound. -/
theorem C4_witness :
    (2 < 10 ∧ 0 < 15) ∧
      Direction.advance .North ⟨2, 0⟩ ⟨10, 15, false⟩ = none ∧
      Direction.advance .North ⟨2, 0⟩ ⟨10, 15, true⟩ = some ⟨2, 14⟩ := by
  refine ⟨⟨by decide, by decide⟩, ?_, ?_⟩
  · rw [(C4_wraparound_law ⟨2, 0⟩ ⟨10, 15, false⟩ .North (by decide) (by decide)).1]
    decide
  · rw [(C4_wraparound_law ⟨2, 0⟩ ⟨10, 15, true⟩ .North (by decide) (by decide)).1]
    decide

/-- C6: `Snake::advance` computes the next head via `Direction::advance`;
on `none` it returns `false` with the snake entirely unchanged, and
otherwise it returns `true` with the new head set, the old head pushed onto
the back of the body, and the body trimmed from the front down to at most
`max_len` cells, leaving `max_len` and `direction` untouched. -/
theorem C6_snake_advance_contract (s : Snake) (b : Bounds) :
    (s.direction.advance s.head b = none → s.advance b = (false, s)) ∧
      (∀ p, s.direction.advance s.head b = some p →
        (s.advance b).1 = true ∧
          (s.advance b).2.head = p ∧
          (s.advance b).2.body = (s.body ++ [s.head]).drop (s.body.length + 1 - s.max_len) ∧
          (s.advance b).2.max_len = s.max_len ∧
          (s.advance b).2.direction = s.direction ∧
          (s.advance b).2.body.length ≤ s.max_len) := by
  constructor
  · exact fun h => Snake.advance_of_edge h
  · intro p hp
    rw [Snake.advance_of_step hp]
    refine ⟨rfl, rfl, ?_, rfl, rfl, ?_⟩
    · show trimFront (s.body ++ [s.head]) s.max_len = _
      rw [trimFront_eq_drop]
      congr 1
      simp
    · show (trimFront (s.body ++ [s.head]) s.max_len).length ≤ s.max_len
      rw [trimFront_length]
      omega

/-- C6 witness: a snake blocked at the north edge is returned unchanged with
`false`; an unblocked snake with a full body moves its head, pushes the old
head, and drops its oldest cell. -/
theorem C6_witness :
    Snake.advance ⟨⟨2, 0⟩, [], 3, .North⟩ ⟨10, 15, false⟩ =
        (false, ⟨⟨2, 0⟩, [], 3, .North⟩) ∧
      (Snake.advance ⟨⟨2, 7⟩, [⟨2, 9⟩, ⟨2, 8⟩], 2, .North⟩ ⟨10, 15, false⟩).2.head = ⟨2, 6⟩ ∧
      (Snake.advance ⟨⟨2, 7⟩, [⟨2, 9⟩, ⟨2, 8⟩], 2, .North⟩ ⟨10, 15, false⟩).2.body =
        [⟨2, 8⟩, ⟨2, 7⟩] := by
  refine ⟨(C6_snake_advance_contract _ _).1 (by decide), ?_, ?_⟩
  · exact ((C6_snake_advance_contract _ _).2 ⟨2, 6⟩ (by decide)).2.1
  · rw [((C6_snake_advance_contract _ _).2 ⟨2, 6⟩ (by decide)).2.2.1]
    decide

/-- Folding `erase` over a list never adds an element back. -/
theorem foldl_erase_not_mem_of_not_mem {p : Position} (l : List Position)
    {s : Finset Position} (h : p ∉ s) :
    p ∉ l.foldl (fun t q => t.erase q) s := by
  induction l generalizing s with
  | nil => exact h
  | cons a t ih => exact ih fun hc => h (Finset.mem_of_mem_erase hc)

/-- Folding `erase` over a list removes every element of the list. -/
theorem foldl_erase_not_mem_of_mem {p : Position} {l : List Position}
    {s : Finset Position} (h : p ∈ l) :
    p ∉ l.foldl (fun t q => t.erase q) s := by
  induction l generalizing s with
  | nil => cases h
  | cons a t ih =>
      rcases List.mem_cons.mp h with rfl | hm
      · by_cases hmem : p ∈ t
        · exact ih hmem
        · exact foldl_erase_not_mem_of_not_mem t (Finset.not_mem_erase p s)
      · exact ih hm

/-- C7: after `LevelMap::set_obstacles`, no cell of either clearance lane is
an obstacle, where the lanes are the walks of `FORWARDS_CLEARANCE` cells
from the snake's start in its start direction and `BACKWARDS_CLEARANCE`
cells in the reversed direction, using the wraparound-aware `advance` and
stopping early when it returns none. -/
theorem C7_clearance_lanes (m : LevelMap) (r : Rng) (p : Position)
    (hp : p ∈ walkPath m.snake_start.1 m.snake_start.2 m.bounds FORWARDS_CLEARANCE ∨
      p ∈ walkPath m.snake_start.1 m.snake_start.2.reverse m.bounds BACKWARDS_CLEARANCE) :
    p ∉ (m.set_obstacles r).1.obstacles := by
  unfold LevelMap.set_obstacles
  simp only
  rcases hp with hfwd | hbwd
  · exact foldl_erase_not_mem_of_not_mem _ (foldl_erase_not_mem_of_mem hfwd)
  · exact foldl_erase_not_mem_of_mem hbwd

/-- C7 witness: on a fresh 5×5 map whose RNG stream makes every Bernoulli
trial succeed, the lane cell `(2, 0)` (two steps north of the center start)
is not an obstacle after generation. -/
theorem C7_witness :
    ((⟨2, 0⟩ : Position) ∈
        walkPath demoMap.snake_start.1 demoMap.snake_start.2 demoMap.bounds
          FORWARDS_CLEARANCE ∨
      (⟨2, 0⟩ : Position) ∈
        walkPath demoMap.snake_start.1 demoMap.snake_start.2.reverse demoMap.bounds
          BACKWARDS_CLEARANCE) ∧
      (⟨2, 0⟩ : Position) ∉ (demoMap.set_obstacles demoRng).1.obstacles :=
  ⟨Or.inl (by decide), C7_clearance_lanes demoMap demoRng ⟨2, 0⟩ (Or.inl (by decide))⟩

/-- C9: when at least one board cell lies outside
`fruits ∪ obstacles ∪ {head} ∪ body`, `Game::place_fruit` adds exactly one
such free cell to the fruit set; when no free cell exists it leaves the
fruit set unchanged.  Both outcomes are ordinary returns of the total
function — saturation raises no error. -/
theorem C9_place_fruit_contract (g : Game) :
    ((∃ q : Position, q.x < g.map.bounds.width ∧ q.y < g.map.bounds.height ∧
          q ∉ g.fruits ∧ q ∉ g.map.obstacles ∧ q ≠ g.snake.head ∧ q ∉ g.snake.body) →
        ∃ p : Position, p.x < g.map.bounds.width ∧ p.y < g.map.bounds.height ∧
          p ∉ g.fruits ∧ p ∉ g.map.obstacles ∧ p ≠ g.snake.head ∧ p ∉ g.snake.body ∧
          g.place_fruit.fruits = insert p g.fruits ∧
          g.place_fruit.fruits.card = g.fruits.card + 1) ∧
      ((¬ ∃ q : Position, q.x < g.map.bounds.width ∧ q.y < g.map.bounds.height ∧
          q ∉ g.fruits ∧ q ∉ g.map.obstacles ∧ q ≠ g.snake.head ∧ q ∉ g.snake.body) →
        g.place_fruit.fruits = g.fruits) := by
  constructor
  · rintro ⟨q, hq⟩
    have hqfree : q ∈ g.freeCells := mem_freeCells.mpr hq
    rcases hc : (chooseFrom g.rng g.freeCells).1 with _ | p
    · exact absurd (chooseFrom_fst_eq_none.mp hc) (List.ne_nil_of_mem hqfree)
    · obtain ⟨h1, h2, h3, h4, h5, h6⟩ := mem_freeCells.mp (chooseFrom_mem hc)
      have hins : g.place_fruit.fruits = insert p g.fruits := by
        unfold Game.place_fruit
        simp only
        rw [hc]
      refine ⟨p, h1, h2, h3, h4, h5, h6, hins, ?_⟩
      rw [hins]
      exact Finset.card_insert_of_not_mem h3
  · intro hno
    have hfree : g.freeCells = [] := by
      rcases he : g.freeCells with _ | ⟨x, xs⟩
      · rfl
      · exact absurd ⟨x, mem_freeCells.mp (he ▸ List.mem_cons_self x xs)⟩ hno
    unfold Game.place_fruit
    simp only
    rw [chooseFrom_fst_eq_none.mpr hfree]

/-- C9 witness: on a 1×2 board with only `(0, 0)` free, placement adds
exactly that cell; on the saturated 1×1 board, placement leaves the (empty)
fruit set unchanged. -/
theorem C9_witness :
    gameOneFree.place_fruit.fruits.card = gameOneFree.fruits.card + 1 ∧
      gameSaturated.place_fruit.fruits = gameSaturated.fruits := by
  constructor
  · obtain ⟨p, -, -, -, -, -, -, -, hcard⟩ :=
      (C9_place_fruit_contract gameOneFree).1
        ⟨⟨0, 0⟩, by decide, by decide, by decide, by decide, by decide, by decide⟩
    exact hcard
  · refine (C9_place_fruit_contract gameSaturated).2 ?_
    rintro ⟨⟨x, y⟩, hx, hy, -, -, hh, -⟩
    have hx0 : x = 0 := by
      have : x < 1 := hx
      omega
    have hy0 : y = 0 := by
      have : y < 1 := hy
      omega
    subst hx0
    subst hy0
    exact hh (by decide)

/-- C5: the `PostMortem` computed by `Game::finalize_score` (on entry to
`Dead` or `Exhausted`) reports a new high score exactly when the score is
positive and either no high score is recorded for the current options or the
score strictly exceeds it; and in that case the stored high score for the
current options is updated to the score. -/
theorem C5_finalize_score_contract (g : Game) :
    ((g.finalize_score).2.new_high_score = true ↔
        0 < g.score ∧
          (g.high_score = none ∨ ∃ hs, g.high_score = some hs ∧ hs < g.score)) ∧
      ((g.finalize_score).2.new_high_score = true →
        (g.finalize_score).1.globals.high_scores.get g.globals.options = some g.score) := by
  unfold Game.finalize_score Game.new_high_score HighScores.get HighScores.set
  rcases hhs : g.high_score with _ | hs <;> by_cases h0 : g.score = 0
  · simp [h0, hhs]
  · constructor
    · simp [h0]
      omega
    · intro
      simp [h0]
  · simp [h0, hhs]
  · by_cases hlt : hs < g.score
    · constructor
      · simp [h0, hlt]
        omega
      · intro
        simp [h0, hlt]
    · constructor
      · simp [h0, hlt]
      · intro h
        simp [h0, hlt] at h

/-- C5 witness: score 42 with no stored high score reports a new high score
and records 42; score 1 with a stored high score of 42 reports none. -/
theorem C5_witness :
    (gameScore42.finalize_score).2.new_high_score = true ∧
      (gameScore42.finalize_score).1.globals.high_scores.get gameScore42.globals.options =
        some 42 ∧
      (gameScore1Hs42.finalize_score).2.new_high_score = false := by
  have h42 := C5_finalize_score_contract gameScore42
  have htrue : (gameScore42.finalize_score).2.new_high_score = true :=
    h42.1.mpr ⟨by decide, Or.inl (by decide)⟩
  refine ⟨htrue, h42.2 htrue, ?_⟩
  have h1 := C5_finalize_score_contract gameScore1Hs42
  rcases hb : (gameScore1Hs42.finalize_score).2.new_high_score
  · rfl
  · obtain ⟨-, hc⟩ := h1.1.mp hb
    rcases hc with hc | ⟨hs, hhs, hlt⟩
    · exact absurd hc (by decide)
    · have h42eq : hs = 42 := by
        have h2 : gameScore1Hs42.high_score = some 42 := rfl
        rw [h2] at hhs
        exact (Option.some.injEq .. ▸ hhs).symm
      have hsc : gameScore1Hs42.score = 1 := rfl
      omega

/-- When the fruit set is empty, the closing check of `Game::advance`
transitions to `Exhausted`. -/
theorem exhaustCheck_state_of_empty {g : Game} (h : g.fruits = ∅) :
    g.exhaustCheck.state = GameState.Exhausted (g.finalize_score).2 := by
  unfold Game.exhaustCheck
  rw [if_pos h]

/-- The predicate `Game::running` holds in the `Running` state. -/
theorem running_true_of_state {g : Game} (h : g.state = GameState.Running) :
    g.running = true := by
  unfold Game.running
  exact decide_eq_true h

/-- C1 counterexample: a running game (empty fruit set, snake blocked at the
north edge of the non-wraparound board).  `Game::advance` takes the
edge-collision branch and `return`s early: the game transitions to `Dead`
even though the fruit set is empty after the call, so the exhaustion check
did not run in that branch. -/
theorem C1_counterexample :
    gameEdgeNoFruit.state = GameState.Running ∧
      gameEdgeNoFruit.advance.fruits = ∅ ∧
      gameEdgeNoFruit.advance.state =
        GameState.Dead { new_high_score := false, warning := none } ∧
      gameEdgeNoFruit.advance.state ≠
        GameState.Exhausted { new_high_score := false, warning := none } :=
  ⟨rfl, by decide, by decide, by decide⟩

/-- C1 (amended): for every running game, after `Game::advance` performs its
movement, fruit-eating and collision handling, the exhaustion check runs in
every branch except the edge-collision branch: when `Snake::advance`
succeeds and the fruit set is then empty, the game transitions to
`Exhausted` with a `PostMortem`; when `Snake::advance` returns `false`, the
method returns early with `Dead` and the fruit set unchanged, skipping the
exhaustion check. -/
theorem C1_exhaustion_check (g : Game) (hrun : g.state = GameState.Running) :
    ((g.snake.advance g.map.bounds).1 = true →
        g.advance.fruits = ∅ → ∃ pm, g.advance.state = GameState.Exhausted pm) ∧
      ((g.snake.advance g.map.bounds).1 = false →
        g.advance.state = GameState.Dead (g.finalize_score).2 ∧
          g.advance.fruits = g.fruits) := by
  have hr := running_true_of_state hrun
  rcases hsa : g.snake.advance g.map.bounds with ⟨ok, s⟩
  constructor
  · intro hok hempty
    dsimp only at hok
    subst hok
    have hadv : g.advance =
        Game.exhaustCheck
          (if s.head ∈ g.fruits then
            { g with
              fruits := g.fruits.erase s.head
              score := g.score + 1
              snake := s.grow }.place_fruit
          else if s.head ∈ s.body ∨ s.head ∈ g.map.obstacles then
            { g with snake := s }.die
          else
            { g with snake := s }) := by
      unfold Game.advance
      rw [hr, hsa]
      rfl
    rw [hadv] at hempty ⊢
    rw [(exhaustCheck_fields _).2.2.1] at hempty
    exact ⟨_, exhaustCheck_state_of_empty hempty⟩
  · intro hfalse
    dsimp only at hfalse
    subst hfalse
    have hs2 : s = g.snake := Snake.advance_false hsa
    subst hs2
    have hadv : g.advance = { g with snake := g.snake }.die := by
      unfold Game.advance
      rw [hr, hsa]
      rfl
    rw [hadv]
    exact ⟨(die_fields _).2.2.2.2, (die_fields _).2.2.1⟩

/-- C1 witness: eating the last fruit on a full 1×2 board exhausts the game
through the closing check, while the blocked-edge game dies with its fruit
set untouched. -/
theorem C1_witness :
    ((gameAboutToExhaust.snake.advance gameAboutToExhaust.map.bounds).1 = true ∧
        gameAboutToExhaust.advance.fruits = ∅ ∧
        ∃ pm, gameAboutToExhaust.advance.state = GameState.Exhausted pm) ∧
      ((gameEdgeNoFruit.snake.advance gameEdgeNoFruit.map.bounds).1 = false ∧
        gameEdgeNoFruit.advance.state = GameState.Dead (gameEdgeNoFruit.finalize_score).2 ∧
        gameEdgeNoFruit.advance.fruits = gameEdgeNoFruit.fruits) := by
  constructor
  · refine ⟨by decide, by decide, ?_⟩
    exact (C1_exhaustion_check gameAboutToExhaust rfl).1 (by decide) (by decide)
  · refine ⟨by decide, ?_, ?_⟩
    · exact ((C1_exhaustion_check gameEdgeNoFruit rfl).2 (by decide)).1
    · exact ((C1_exhaustion_check gameEdgeNoFruit rfl).2 (by decide)).2

end Ratsnake
